import Mathlib

/-!
Shallow embedding of the Apple device-tree-blob module
(`hw/arm/apple-silicon/dtb.c`) and proofs about it.

Modelling conventions:
* byte buffers and C strings are `List Nat`, one entry per byte
  (a C string is its content bytes, which are never NUL);
* machine integers are `Nat` with explicit `% 2 ^ w` where the C code
  truncates;
* the serialiser produces the list of bytes the cursor moves over; bytes
  it skips without writing (payload padding, reserved placeholder space)
  appear as `0`, matching the zero-filled buffer the code expects;
* `gpointer`-style failure and `g_assert` aborts are modelled with
  `Option` in the `_checked` variants of the traversals.
-/

/-- One device-tree property: declared payload length, payload bytes,
and the placeholder flag (`DT_PROP_PLACEHOLDER`, bit 31 of the wire
length field). -/
structure DTBProp where
  length : Nat
  data : List Nat
  placeholder : Bool
deriving DecidableEq, Repr

/-- One device-tree node: the property store (association list in hash
iteration order, which the code requires to be stable across the size
and serialise passes) and the ordered child list. -/
inductive DTBNode : Type where
  | mk : List (List Nat × DTBProp) → List DTBNode → DTBNode

def DTBNode.props : DTBNode → List (List Nat × DTBProp)
  | .mk ps _ => ps

def DTBNode.children : DTBNode → List DTBNode
  | .mk _ cs => cs

/-- Bytes of a Lean string literal, used to write concrete C strings. -/
def strBytes (s : String) : List Nat :=
  s.toList.map Char.toNat

/-- `ROUND_UP(n, 4)` from the QEMU headers. -/
def roundUp4 (n : Nat) : Nat :=
  (n + 3) / 4 * 4

/-- `stl_le_p`: the four little-endian bytes of `n` truncated to 32 bits. -/
def u32le (n : Nat) : List Nat :=
  [n % 256, n / 256 % 256, n / 65536 % 256, n / 16777216 % 256]

/-- `qemu_strsep` driven to exhaustion: the successive tokens obtained by
cutting the string at every separator byte.  Mirrors the
`while ((token = qemu_strsep(&next, sep)))` loops of the source. -/
def strsepTokens (sep : Nat) : List Nat → List (List Nat)
  | [] => [[]]
  | c :: rest =>
    if c = sep then [] :: strsepTokens sep rest
    else
      match strsepTokens sep rest with
      | t :: ts => (c :: t) :: ts
      | [] => [[c]]

/-- Value of an ASCII hexadecimal digit, if the byte is one. -/
def hexDigitVal (c : Nat) : Option Nat :=
  if 48 ≤ c ∧ c ≤ 57 then some (c - 48)
  else if 97 ≤ c ∧ c ≤ 102 then some (c - 87)
  else if 65 ≤ c ∧ c ≤ 70 then some (c - 55)
  else none

/-- Value of a digit in the given base (bases 8, 10, 16 used here). -/
def digitValBase (base c : Nat) : Option Nat :=
  match hexDigitVal c with
  | some v => if v < base then some v else none
  | none => none

/-- Accumulate the maximal leading run of digits of `base`. -/
def parseDigitsAux (base : Nat) : List Nat → Nat → Nat
  | [], acc => acc
  | c :: rest, acc =>
    match digitValBase base c with
    | some v => parseDigitsAux base rest (acc * base + v)
    | none => acc

/-- ASCII whitespace accepted by `strtoull`-style parsing. -/
def isAsciiSpace (c : Nat) : Bool :=
  c = 32 ∨ (9 ≤ c ∧ c ≤ 13)

/-- `g_ascii_strtoull(s, NULL, 0)`: skip whitespace, optional sign,
base detection (`0x`/`0X` hex, leading `0` octal, otherwise decimal),
clamping to `G_MAXUINT64` on overflow, negation in 64-bit arithmetic
for a leading minus. -/
def g_ascii_strtoull0 (s : List Nat) : Nat :=
  let s1 := s.dropWhile isAsciiSpace
  let neg := s1.getD 0 0 = 45
  let s2 := if s1.getD 0 0 = 45 ∨ s1.getD 0 0 = 43 then s1.drop 1 else s1
  let m :=
    match s2 with
    | 48 :: c :: rest =>
      if (c = 120 ∨ c = 88) ∧ (hexDigitVal (rest.getD 0 0)).isSome then
        parseDigitsAux 16 rest 0
      else
        parseDigitsAux 8 (48 :: c :: rest) 0
    | _ => parseDigitsAux 10 s2 0
  if 18446744073709551615 < m then 18446744073709551615
  else if neg then (18446744073709551616 - m % 18446744073709551616) % 18446744073709551616
  else m

/-- The token text of a placeholder property: its `data` buffer of
`length` bytes read as a C string (the source `memcpy`s `length` bytes
and then runs string functions over them; behaviour is only defined
when a NUL terminator lies within). -/
def placeholderText (p : DTBProp) : List Nat :=
  (p.data.take p.length).takeWhile (· ≠ 0)

/-- The token scan of `dtb_get_placeholder_size`: first `macaddr/`,
shape-valid nonzero `syscfg/XXXX/NNN`, or `zeroes/NNN` token decides;
empty tokens, shape-invalid `syscfg` tokens and `syscfg` tokens whose
number parses to 0 are skipped. -/
def scanPlaceholderTokens : List (List Nat) → Nat
  | [] => 0
  | t :: rest =>
    if t = [] then scanPlaceholderTokens rest
    else if (strBytes "macaddr/").isPrefixOf t then 6
    else if (strBytes "syscfg/").isPrefixOf t then
      if t.length < 12 then scanPlaceholderTokens rest
      else if t.getD 11 0 ≠ 47 then scanPlaceholderTokens rest
      else
        let len := g_ascii_strtoull0 (t.drop 12) % 4294967296
        if len = 0 then scanPlaceholderTokens rest
        else len
    else if (strBytes "zeroes/").isPrefixOf t then
      g_ascii_strtoull0 (t.drop 7) % 4294967296
    else scanPlaceholderTokens rest

/-- `dtb_get_placeholder_size` (the `name` argument of the source is
used only for debug logging and is omitted): split the token text on
commas and scan.  The source's `g_assert_cmphex(prop->length, >, 0)`
abort is modelled separately by `dtb_get_placeholder_size_checked`. -/
def dtb_get_placeholder_size (p : DTBProp) : Nat :=
  scanPlaceholderTokens (strsepTokens 44 (placeholderText p))

/-- The 32-byte property-name field written by
`strncpy(*buf, key, DT_PROP_NAME_LEN)`: the key's bytes up to a NUL,
truncated to 32 bytes, zero-filled to the right. -/
def nameField32 (key : List Nat) : List Nat :=
  (List.range 32).map fun i => (key.takeWhile (· ≠ 0)).getD i 0

/-- The payload region of a non-placeholder property: `len` bytes
`memcpy`ed from `data` followed by the buffer's zero padding up to the
next multiple of four (the cursor skips it without writing). -/
def payloadBytes (len : Nat) (data : List Nat) : List Nat :=
  (List.range (roundUp4 len)).map fun i => if i < len then data.getD i 0 else 0

/-- The bytes one property record contributes inside
`dtb_serialise_node`'s iteration: a dropped placeholder (resolved size
0) contributes nothing; an expanded placeholder reserves zeroed space;
a normal property is written verbatim.  The assertion of the resolver
is modelled separately (`dtb_serialise_node_checked`). -/
def dtb_serialise_prop (kp : List Nat × DTBProp) : List Nat :=
  let p := kp.2
  if p.placeholder then
    let ps := dtb_get_placeholder_size p
    if ps = 0 then []
    else nameField32 kp.1 ++ u32le ps ++ List.replicate (roundUp4 ps) 0
  else
    nameField32 kp.1 ++ u32le p.length ++
      (if p.length = 0 then [] else payloadBytes p.length p.data)

/-- Whether `dtb_serialise_node` drops this property (placeholder whose
token text resolves to size 0), decrementing the emitted count. -/
def dtb_prop_dropped (kp : List Nat × DTBProp) : Bool :=
  kp.2.placeholder && dtb_get_placeholder_size kp.2 == 0

mutual

/-- `dtb_serialise_node`: the bytes the cursor moves over — the patched
property count (map size minus dropped placeholders), the child count,
each property record in iteration order, then each child in order
(the `g_list_foreach` over `node->children`). -/
def dtb_serialise_node : DTBNode → List Nat
  | .mk ps cs =>
    u32le (ps.length - (ps.filter dtb_prop_dropped).length) ++
      u32le cs.length ++
      (ps.map dtb_serialise_prop).flatten ++
      dtb_serialise_children cs

def dtb_serialise_children : List DTBNode → List Nat
  | [] => []
  | c :: rest => dtb_serialise_node c ++ dtb_serialise_children rest

end

/-- `dtb_serialise`: serialise the root node at cursor position 0. -/
def dtb_serialise (root : DTBNode) : List Nat :=
  dtb_serialise_node root

/-- `dtb_get_serialised_prop_size` (the unused `name` parameter is
omitted): 36 header bytes plus the rounded payload, or 0 for a dropped
placeholder. -/
def dtb_get_serialised_prop_size (p : DTBProp) : Nat :=
  if p.placeholder then
    let ps := dtb_get_placeholder_size p
    if ps = 0 then 0
    else 32 + 4 + roundUp4 ps
  else 32 + 4 + roundUp4 p.length

mutual

/-- `dtb_get_serialised_node_size`: 8 count bytes plus all property
contributions plus all child subtree sizes (the `for` loop over
`node->children`). -/
def dtb_get_serialised_node_size : DTBNode → Nat
  | .mk ps cs =>
    8 + (ps.map fun kp => dtb_get_serialised_prop_size kp.2).sum +
      dtb_get_serialised_children_size cs

def dtb_get_serialised_children_size : List DTBNode → Nat
  | [] => 0
  | c :: rest => dtb_get_serialised_node_size c + dtb_get_serialised_children_size rest

end

/-- Structural induction over the nested tree type: it is enough to
handle a node given the hypothesis for each of its children. -/
theorem DTBNode.inductionOn (motive : DTBNode → Prop)
    (h : ∀ ps cs, (∀ c ∈ cs, motive c) → motive (DTBNode.mk ps cs)) :
    ∀ n, motive n
  | .mk ps cs => h ps cs fun c hc =>
    have : sizeOf c < sizeOf (DTBNode.mk ps cs) := by
      simp only [DTBNode.mk.sizeOf_spec]
      have := List.sizeOf_lt_of_mem hc
      omega
    DTBNode.inductionOn motive h c
termination_by n => sizeOf n

theorem length_nameField32 (key : List Nat) : (nameField32 key).length = 32 := by
  simp [nameField32]

theorem length_u32le (n : Nat) : (u32le n).length = 4 := by
  simp [u32le]

theorem length_payloadBytes (len : Nat) (data : List Nat) :
    (payloadBytes len data).length = roundUp4 len := by
  simp [payloadBytes]

/-- Each property record occupies exactly the number of bytes the size
calculator charges for it. -/
theorem length_dtb_serialise_prop (kp : List Nat × DTBProp) :
    (dtb_serialise_prop kp).length = dtb_get_serialised_prop_size kp.2 := by
  unfold dtb_serialise_prop dtb_get_serialised_prop_size
  by_cases hp : kp.2.placeholder
  · simp only [hp, if_true]
    by_cases h0 : dtb_get_placeholder_size kp.2 = 0
    · simp [h0]
    · simp [h0, length_nameField32, length_u32le]
      omega
  · simp only [hp, Bool.false_eq_true, if_false]
    by_cases h0 : kp.2.length = 0
    · simp [h0, length_nameField32, length_u32le, roundUp4]
    · simp [h0, length_nameField32, length_u32le, length_payloadBytes]
      omega

/-- The serialiser's cursor advance equals the computed size, node by
node. -/
theorem length_dtb_serialise_node (n : DTBNode) :
    (dtb_serialise_node n).length = dtb_get_serialised_node_size n := by
  induction n using DTBNode.inductionOn with
  | h ps cs ih =>
    have hch : (dtb_serialise_children cs).length =
        dtb_get_serialised_children_size cs := by
      induction cs with
      | nil => rfl
      | cons c rest ihc =>
        rw [dtb_serialise_children, dtb_get_serialised_children_size,
          List.length_append, ih c (by simp),
          ihc fun x hx => ih x (by simp [hx])]
    rw [dtb_serialise_node, dtb_get_serialised_node_size]
    simp only [List.length_append, length_u32le, List.length_flatten, List.map_map]
    have hprops : (List.map (List.length ∘ dtb_serialise_prop) ps).sum =
        (ps.map fun kp => dtb_get_serialised_prop_size kp.2).sum := by
      congr 1
      exact List.map_congr_left fun kp _ => length_dtb_serialise_prop kp
    omega

/-- C1: serialising any tree advances the output cursor by exactly the
number of bytes `dtb_get_serialised_node_size` computes for it, for
every combination of placeholder, non-placeholder, zero-length
properties and empty subtrees. -/
theorem c1_serialise_size_agreement (t : DTBNode) :
    (dtb_serialise t).length = dtb_get_serialised_node_size t :=
  length_dtb_serialise_node t

/-- A placeholder property whose token text is the given string, as
built by the deserialiser or test harnesses: NUL-terminated text, the
declared length covering it. -/
def placeholderPropOfString (s : String) : DTBProp :=
  { length := s.length + 1, data := strBytes s ++ [0], placeholder := true }

/-- C3: the four placeholder-resolution examples: `macaddr/eth0` gives
6, shape-valid `syscfg/ABCD/16` gives 16, `zeroes/0x10` gives 16
(0x-hexadecimal accepted), an unrecognised token gives 0. -/
theorem c3_placeholder_resolution_examples :
    dtb_get_placeholder_size (placeholderPropOfString "macaddr/eth0") = 6 ∧
    dtb_get_placeholder_size (placeholderPropOfString "syscfg/ABCD/16") = 16 ∧
    dtb_get_placeholder_size (placeholderPropOfString "zeroes/0x10") = 16 ∧
    dtb_get_placeholder_size (placeholderPropOfString "bogus") = 0 := by
  refine ⟨?_, ?_, ?_, ?_⟩ <;> decide

/-- A token that stops the resolver's scan: non-empty and either
`macaddr/`-prefixed, `syscfg/`-prefixed with valid shape and a nonzero
parsed number, or `zeroes/`-prefixed (any number, including 0). -/
def placeholderTokenDecides (t : List Nat) : Bool :=
  !t.isEmpty &&
    ((strBytes "macaddr/").isPrefixOf t ||
      ((strBytes "syscfg/").isPrefixOf t && decide (12 ≤ t.length) &&
        (t.getD 11 0 == 47) && !(g_ascii_strtoull0 (t.drop 12) % 4294967296 == 0)) ||
      (strBytes "zeroes/").isPrefixOf t)

/-- The length a deciding token resolves to. -/
def placeholderTokenValue (t : List Nat) : Nat :=
  if (strBytes "macaddr/").isPrefixOf t then 6
  else if (strBytes "syscfg/").isPrefixOf t then
    g_ascii_strtoull0 (t.drop 12) % 4294967296
  else g_ascii_strtoull0 (t.drop 7) % 4294967296

theorem prefix_byte0 {a t : List Nat} (h : a.isPrefixOf t = true)
    (ha : 0 < a.length) : t.getD 0 0 = a.getD 0 0 := by
  obtain ⟨r, rfl⟩ := List.isPrefixOf_iff_prefix.mp h
  rw [List.getD_eq_getElem?_getD, List.getD_eq_getElem?_getD,
    List.getElem?_append_left ha]

theorem syscfg_not_macaddr {t : List Nat}
    (h : (strBytes "syscfg/").isPrefixOf t = true) :
    (strBytes "macaddr/").isPrefixOf t = false := by
  cases hm : (strBytes "macaddr/").isPrefixOf t
  · rfl
  · exact absurd ((prefix_byte0 h (by decide)).symm.trans
      (prefix_byte0 hm (by decide))) (by decide)

theorem zeroes_not_macaddr {t : List Nat}
    (h : (strBytes "zeroes/").isPrefixOf t = true) :
    (strBytes "macaddr/").isPrefixOf t = false := by
  cases hm : (strBytes "macaddr/").isPrefixOf t
  · rfl
  · exact absurd ((prefix_byte0 h (by decide)).symm.trans
      (prefix_byte0 hm (by decide))) (by decide)

theorem zeroes_not_syscfg {t : List Nat}
    (h : (strBytes "zeroes/").isPrefixOf t = true) :
    (strBytes "syscfg/").isPrefixOf t = false := by
  cases hm : (strBytes "syscfg/").isPrefixOf t
  · rfl
  · exact absurd ((prefix_byte0 h (by decide)).symm.trans
      (prefix_byte0 hm (by decide))) (by decide)

/-- A token the scan does not stop at is skipped: the result is decided
by the remaining tokens alone. -/
theorem scan_skip_of_not_decides (t : List Nat) (rest : List (List Nat))
    (h : placeholderTokenDecides t = false) :
    scanPlaceholderTokens (t :: rest) = scanPlaceholderTokens rest := by
  by_cases ht : t = []
  · simp [scanPlaceholderTokens, ht]
  cases hmac : (strBytes "macaddr/").isPrefixOf t
  · cases hsys : (strBytes "syscfg/").isPrefixOf t
    · cases hz : (strBytes "zeroes/").isPrefixOf t
      · simp [scanPlaceholderTokens, ht, hmac, hsys, hz]
      · exfalso
        simp [placeholderTokenDecides, ht, hmac, hsys, hz] at h
    · by_cases hlen : t.length < 12
      · simp [scanPlaceholderTokens, ht, hmac, hsys, hlen]
      by_cases h47 : t[11]?.getD 0 = 47
      · by_cases hval : g_ascii_strtoull0 (t.drop 12) % 4294967296 = 0
        · simp [scanPlaceholderTokens, ht, hmac, hsys, hlen, h47, hval]
        · exfalso
          simp [placeholderTokenDecides, ht, hmac, hsys, Nat.le_of_not_lt hlen,
            h47, hval] at h
      · simp [scanPlaceholderTokens, ht, hmac, hsys, hlen, h47]
  · exfalso
    simp [placeholderTokenDecides, ht, hmac] at h

/-- A token the scan stops at decides the resolved length: the
remaining tokens are never consulted. -/
theorem scan_stop_of_decides (t : List Nat) (rest : List (List Nat))
    (h : placeholderTokenDecides t = true) :
    scanPlaceholderTokens (t :: rest) = placeholderTokenValue t := by
  cases hmac : (strBytes "macaddr/").isPrefixOf t
  · cases hsys : (strBytes "syscfg/").isPrefixOf t
    · have hz : (strBytes "zeroes/").isPrefixOf t = true := by
        by_contra hz2
        simp [placeholderTokenDecides, hmac, hsys, hz2] at h
      have ht : t ≠ [] := by
        intro he
        rw [he] at hz
        exact absurd hz (by decide)
      simp [scanPlaceholderTokens, placeholderTokenValue, ht, hmac, hsys, hz]
    · have hz : (strBytes "zeroes/").isPrefixOf t = false := by
        cases hzz : (strBytes "zeroes/").isPrefixOf t
        · rfl
        · exact absurd hsys (by simp [zeroes_not_syscfg hzz])
      have ht : t ≠ [] := by
        intro he
        rw [he] at hsys
        exact absurd hsys (by decide)
      have hlen : 12 ≤ t.length := by
        by_contra hl
        simp [placeholderTokenDecides, hmac, hsys, hz, hl] at h
      have h47 : t[11]?.getD 0 = 47 := by
        by_contra h4
        simp [placeholderTokenDecides, hmac, hsys, hz, h4] at h
      have hval : g_ascii_strtoull0 (t.drop 12) % 4294967296 ≠ 0 := by
        intro hv
        simp [placeholderTokenDecides, hmac, hsys, hz, hv] at h
      simp [scanPlaceholderTokens, placeholderTokenValue, ht, hmac, hsys,
        Nat.not_lt.mpr hlen, h47, hval]
  · have ht : t ≠ [] := by
      intro he
      rw [he] at hmac
      exact absurd hmac (by decide)
    simp [scanPlaceholderTokens, placeholderTokenValue, ht, hmac]

/-- Tokens before the first deciding token are all skipped. -/
theorem scan_append_of_none_decides (pre l : List (List Nat))
    (h : ∀ u ∈ pre, placeholderTokenDecides u = false) :
    scanPlaceholderTokens (pre ++ l) = scanPlaceholderTokens l := by
  induction pre with
  | nil => rfl
  | cons u us ih =>
    rw [List.cons_append, scan_skip_of_not_decides u (us ++ l) (h u (by simp))]
    exact ih fun v hv => h v (by simp [hv])

/-- C2 counterexample: in `"syscfg/XXXX/0,zeroes/N"` the shape-valid
`syscfg` token whose number parses to 0 does NOT decide the result; the
scan continues and the `zeroes` token yields N (here 8), not 0 as the
claim states. -/
theorem c2_syscfg_zero_continues_counterexample :
    dtb_get_placeholder_size (placeholderPropOfString "syscfg/ABCD/0,zeroes/8") = 8 := by
  decide

/-- C2 (amended): the token text is split on commas, empty and
non-matching tokens are skipped, and the first matching token decides
the result with later tokens never consulted — where a shape-valid
`syscfg` token whose number parses to 0 is treated as non-matching and
scanning continues, while a matched `zeroes` token yields its parsed
number even when that is 0. -/
theorem c2_first_match_semantics (pre : List (List Nat)) (t : List Nat)
    (rest : List (List Nat))
    (hpre : ∀ u ∈ pre, placeholderTokenDecides u = false)
    (ht : placeholderTokenDecides t = true) :
    scanPlaceholderTokens (pre ++ t :: rest) = placeholderTokenValue t ∧
    (∀ u rest2, (strBytes "syscfg/").isPrefixOf u = true → 12 ≤ u.length →
      u[11]?.getD 0 = 47 → g_ascii_strtoull0 (u.drop 12) % 4294967296 = 0 →
      scanPlaceholderTokens (u :: rest2) = scanPlaceholderTokens rest2) ∧
    (∀ u rest2, (strBytes "zeroes/").isPrefixOf u = true →
      g_ascii_strtoull0 (u.drop 7) % 4294967296 = 0 →
      scanPlaceholderTokens (u :: rest2) = 0) := by
  refine ⟨?_, ?_, ?_⟩
  · rw [scan_append_of_none_decides pre _ hpre]
    exact scan_stop_of_decides t rest ht
  · intro u rest2 hu hlen h47 hval
    apply scan_skip_of_not_decides
    have hz : (strBytes "zeroes/").isPrefixOf u = false := by
      cases hzz : (strBytes "zeroes/").isPrefixOf u
      · rfl
      · exact absurd hu (by simp [zeroes_not_syscfg hzz])
    simp [placeholderTokenDecides, syscfg_not_macaddr hu, hu, hz, hval, h47]
  · intro u rest2 hu hval
    have hd : placeholderTokenDecides u = true := by
      have hne : u ≠ [] := by
        intro he
        rw [he] at hu
        exact absurd hu (by decide)
      simp [placeholderTokenDecides, hne, hu]
    rw [scan_stop_of_decides u rest2 hd, placeholderTokenValue,
      zeroes_not_macaddr hu, zeroes_not_syscfg hu]
    simpa using hval

/-- Witness for the amended C2 statement at concrete inputs. -/
theorem c2_first_match_semantics_witness :
    scanPlaceholderTokens
      ([strBytes "bogus", []] ++ strBytes "zeroes/0x10" :: [strBytes "macaddr/e"]) =
      placeholderTokenValue (strBytes "zeroes/0x10") :=
  (c2_first_match_semantics [strBytes "bogus", []] (strBytes "zeroes/0x10")
    [strBytes "macaddr/e"] (by decide) (by decide)).1

theorem length_filter_not_eq (p : α → Bool) (l : List α) :
    l.length - (l.filter p).length = (l.filter fun a => !p a).length := by
  induction l with
  | nil => rfl
  | cons a l ih =>
    have hle := l.length_filter_le p
    cases h : p a <;> simp [List.filter_cons, h] <;> omega

/-- C5: a placeholder property resolving to 0 contributes no bytes to
the serialised stream and 0 bytes to the computed size, and the
property-count field written at the front of the node record is the
property-map size minus the dropped placeholders, which equals the
number of property records actually emitted. -/
theorem c5_placeholder_drop (n : DTBNode) :
    (dtb_serialise_node n).take 4 =
      u32le ((n.props.filter fun kp => !dtb_prop_dropped kp).length) ∧
    (n.props.filter fun kp => !dtb_prop_dropped kp).length =
      n.props.length - (n.props.filter dtb_prop_dropped).length ∧
    (∀ kp ∈ n.props, kp.2.placeholder = true →
      dtb_get_placeholder_size kp.2 = 0 →
      dtb_serialise_prop kp = [] ∧ dtb_get_serialised_prop_size kp.2 = 0) := by
  obtain ⟨ps, cs⟩ := n
  refine ⟨?_, (length_filter_not_eq _ _).symm, ?_⟩
  · rw [dtb_serialise_node]
    show (u32le (ps.length - (ps.filter dtb_prop_dropped).length) ++ _).take 4 = _
    rw [show (4 : Nat) = (u32le (ps.length - (ps.filter dtb_prop_dropped).length)).length
        from (length_u32le _).symm,
      List.take_left, length_filter_not_eq]
    rfl
  · intro kp _ hph h0
    constructor
    · simp [dtb_serialise_prop, hph, h0]
    · simp [dtb_get_serialised_prop_size, hph, h0]

/-- The node used to witness C5: one dropped placeholder (`zeroes/0`)
and one ordinary byte property. -/
def c5node : DTBNode :=
  DTBNode.mk [(strBytes "a", placeholderPropOfString "zeroes/0"),
    (strBytes "b", { length := 1, data := [7], placeholder := false })] []

/-- Witness for C5 at a concrete node: the emitted property count is 1
although the property map holds 2 entries, and the dropped placeholder
emits nothing. -/
theorem c5_placeholder_drop_witness :
    (dtb_serialise_node c5node).take 4 = u32le 1 ∧
    dtb_serialise_prop (strBytes "a", placeholderPropOfString "zeroes/0") = [] ∧
    dtb_get_serialised_prop_size (placeholderPropOfString "zeroes/0") = 0 := by
  have h1 := (c5_placeholder_drop c5node).1
  have h2 := (c5_placeholder_drop c5node).2.2
    (strBytes "a", placeholderPropOfString "zeroes/0")
    (by decide) (by decide) (by decide)
  rw [show ((c5node.props.filter fun kp => !dtb_prop_dropped kp).length) = 1
    from by decide] at h1
  exact ⟨h1, h2.1, h2.2⟩

/-- The resolver with its `g_assert_cmphex(prop->length, >, 0)` entry
assertion: `none` models the fatal abort on a zero-length placeholder. -/
def dtb_get_placeholder_size_checked (p : DTBProp) : Option Nat :=
  if p.length = 0 then none else some (dtb_get_placeholder_size p)

/-- `dtb_get_serialised_prop_size` with the resolver's assertion
propagated. -/
def dtb_get_serialised_prop_size_checked (p : DTBProp) : Option Nat :=
  if p.placeholder then
    match dtb_get_placeholder_size_checked p with
    | none => none
    | some ps => some (if ps = 0 then 0 else 32 + 4 + roundUp4 ps)
  else some (32 + 4 + roundUp4 p.length)

/-- One serialised property record with the resolver's assertion
propagated. -/
def dtb_serialise_prop_checked (kp : List Nat × DTBProp) : Option (List Nat) :=
  if kp.2.placeholder then
    match dtb_get_placeholder_size_checked kp.2 with
    | none => none
    | some ps =>
      some (if ps = 0 then []
        else nameField32 kp.1 ++ u32le ps ++ List.replicate (roundUp4 ps) 0)
  else
    some (nameField32 kp.1 ++ u32le kp.2.length ++
      (if kp.2.length = 0 then [] else payloadBytes kp.2.length kp.2.data))

/-- Combine two abort-propagating computations by addition. -/
def optionAdd : Option Nat → Option Nat → Option Nat
  | some a, some b => some (a + b)
  | _, _ => none

/-- Combine two abort-propagating computations by concatenation. -/
def optionAppend : Option (List Nat) → Option (List Nat) → Option (List Nat)
  | some a, some b => some (a ++ b)
  | _, _ => none

/-- Abort-propagating sum of the per-property size contributions. -/
def optionSum : List (Option Nat) → Option Nat
  | [] => some 0
  | o :: rest => optionAdd o (optionSum rest)

/-- Abort-propagating concatenation of the per-property records. -/
def optionFlatten : List (Option (List Nat)) → Option (List Nat)
  | [] => some []
  | o :: rest => optionAppend o (optionFlatten rest)

mutual

/-- The size traversal with the resolver's assertion propagated. -/
def dtb_get_serialised_node_size_checked : DTBNode → Option Nat
  | .mk ps cs =>
    optionAdd (some 8)
      (optionAdd (optionSum (ps.map fun kp => dtb_get_serialised_prop_size_checked kp.2))
        (dtb_get_serialised_children_size_checked cs))

def dtb_get_serialised_children_size_checked : List DTBNode → Option Nat
  | [] => some 0
  | c :: rest =>
    optionAdd (dtb_get_serialised_node_size_checked c)
      (dtb_get_serialised_children_size_checked rest)

end

mutual

/-- The serialise traversal with the resolver's assertion propagated. -/
def dtb_serialise_node_checked : DTBNode → Option (List Nat)
  | .mk ps cs =>
    optionAppend
      (some (u32le (ps.length - (ps.filter dtb_prop_dropped).length) ++ u32le cs.length))
      (optionAppend (optionFlatten (ps.map dtb_serialise_prop_checked))
        (dtb_serialise_children_checked cs))

def dtb_serialise_children_checked : List DTBNode → Option (List Nat)
  | [] => some []
  | c :: rest =>
    optionAppend (dtb_serialise_node_checked c) (dtb_serialise_children_checked rest)

end

mutual

/-- Whether the tree contains a placeholder property of length 0 — the
exact condition under which either traversal reaches the resolver's
assertion. -/
def hasZeroLengthPlaceholder : DTBNode → Bool
  | .mk ps cs =>
    ps.any (fun kp => kp.2.placeholder && kp.2.length == 0) ||
      childrenHaveZeroLengthPlaceholder cs

def childrenHaveZeroLengthPlaceholder : List DTBNode → Bool
  | [] => false
  | c :: rest =>
    hasZeroLengthPlaceholder c || childrenHaveZeroLengthPlaceholder rest

end

theorem prop_size_checked_none {p : DTBProp} (hp : p.placeholder = true)
    (h0 : p.length = 0) : dtb_get_serialised_prop_size_checked p = none := by
  simp [dtb_get_serialised_prop_size_checked, dtb_get_placeholder_size_checked, hp, h0]

theorem prop_size_checked_some {p : DTBProp}
    (h : ¬(p.placeholder = true ∧ p.length = 0)) :
    dtb_get_serialised_prop_size_checked p =
      some (dtb_get_serialised_prop_size p) := by
  by_cases hp : p.placeholder = true
  · have h0 : p.length ≠ 0 := fun hh => h ⟨hp, hh⟩
    simp [dtb_get_serialised_prop_size_checked, dtb_get_placeholder_size_checked,
      dtb_get_serialised_prop_size, hp, h0]
  · simp [dtb_get_serialised_prop_size_checked, dtb_get_serialised_prop_size, hp]

theorem serialise_prop_checked_none {kp : List Nat × DTBProp}
    (hp : kp.2.placeholder = true) (h0 : kp.2.length = 0) :
    dtb_serialise_prop_checked kp = none := by
  simp [dtb_serialise_prop_checked, dtb_get_placeholder_size_checked, hp, h0]

theorem serialise_prop_checked_some {kp : List Nat × DTBProp}
    (h : ¬(kp.2.placeholder = true ∧ kp.2.length = 0)) :
    dtb_serialise_prop_checked kp = some (dtb_serialise_prop kp) := by
  by_cases hp : kp.2.placeholder = true
  · have h0 : kp.2.length ≠ 0 := fun hh => h ⟨hp, hh⟩
    simp [dtb_serialise_prop_checked, dtb_get_placeholder_size_checked,
      dtb_serialise_prop, hp, h0]
  · simp [dtb_serialise_prop_checked, dtb_serialise_prop, hp]

theorem optionAdd_none_left (b : Option Nat) : optionAdd none b = none := by
  cases b <;> rfl

theorem optionAdd_none_right (a : Option Nat) : optionAdd a none = none := by
  cases a <;> rfl

theorem optionAppend_none_left (b : Option (List Nat)) :
    optionAppend none b = none := by
  cases b <;> rfl

theorem optionAppend_none_right (a : Option (List Nat)) :
    optionAppend a none = none := by
  cases a <;> rfl

theorem optionSum_map_none {α : Type} (f : α → Option Nat) {l : List α} {x : α}
    (hx : x ∈ l) (h : f x = none) : optionSum (l.map f) = none := by
  induction l with
  | nil => cases hx
  | cons a rest ih =>
    rcases List.mem_cons.mp hx with rfl | hx2
    · rw [List.map_cons, optionSum, h, optionAdd_none_left]
    · rw [List.map_cons, optionSum, ih hx2, optionAdd_none_right]

theorem optionSum_map_some {α : Type} (f : α → Option Nat) (g : α → Nat)
    {l : List α} (h : ∀ x ∈ l, f x = some (g x)) :
    optionSum (l.map f) = some (l.map g).sum := by
  induction l with
  | nil => rfl
  | cons a rest ih =>
    rw [List.map_cons, optionSum, h a (by simp),
      ih fun x hx => h x (by simp [hx])]
    rfl

theorem optionFlatten_map_none {α : Type} (f : α → Option (List Nat))
    {l : List α} {x : α} (hx : x ∈ l) (h : f x = none) :
    optionFlatten (l.map f) = none := by
  induction l with
  | nil => cases hx
  | cons a rest ih =>
    rcases List.mem_cons.mp hx with rfl | hx2
    · rw [List.map_cons, optionFlatten, h, optionAppend_none_left]
    · rw [List.map_cons, optionFlatten, ih hx2, optionAppend_none_right]

theorem optionFlatten_map_some {α : Type} (f : α → Option (List Nat))
    (g : α → List Nat) {l : List α} (h : ∀ x ∈ l, f x = some (g x)) :
    optionFlatten (l.map f) = some (l.map g).flatten := by
  induction l with
  | nil => rfl
  | cons a rest ih =>
    rw [List.map_cons, optionFlatten, h a (by simp),
      ih fun x hx => h x (by simp [hx])]
    rfl

/-- C9: a zero-length placeholder property anywhere in the tree makes
both the size traversal and the serialise traversal hit the resolver's
`length > 0` assertion (modelled as `none`); conversely, when every
placeholder property has nonzero length the assertion never fires and
both checked traversals total to exactly the unchecked results. -/
theorem c9_zero_length_placeholder_assert (t : DTBNode) :
    (hasZeroLengthPlaceholder t = true →
      dtb_get_serialised_node_size_checked t = none ∧
      dtb_serialise_node_checked t = none) ∧
    (hasZeroLengthPlaceholder t = false →
      dtb_get_serialised_node_size_checked t =
        some (dtb_get_serialised_node_size t) ∧
      dtb_serialise_node_checked t = some (dtb_serialise_node t)) := by
  induction t using DTBNode.inductionOn with
  | h ps cs ih =>
    have hch :
        (childrenHaveZeroLengthPlaceholder cs = true →
          dtb_get_serialised_children_size_checked cs = none ∧
          dtb_serialise_children_checked cs = none) ∧
        (childrenHaveZeroLengthPlaceholder cs = false →
          dtb_get_serialised_children_size_checked cs =
            some (dtb_get_serialised_children_size cs) ∧
          dtb_serialise_children_checked cs = some (dtb_serialise_children cs)) := by
      induction cs with
      | nil =>
        exact ⟨fun h2 => absurd h2 (by simp [childrenHaveZeroLengthPlaceholder]),
          fun _ => ⟨rfl, rfl⟩⟩
      | cons c rest ihc =>
        have ihrest := ihc fun x hx => ih x (List.mem_cons_of_mem c hx)
        have ihc1 := ih c (List.mem_cons_self c rest)
        constructor
        · intro hz
          rw [childrenHaveZeroLengthPlaceholder, Bool.or_eq_true] at hz
          rcases hz with hz | hz
          · obtain ⟨h1, h2⟩ := ihc1.1 hz
            exact ⟨by
                rw [dtb_get_serialised_children_size_checked, h1, optionAdd_none_left],
              by rw [dtb_serialise_children_checked, h2, optionAppend_none_left]⟩
          · obtain ⟨h1, h2⟩ := ihrest.1 hz
            exact ⟨by
                rw [dtb_get_serialised_children_size_checked, h1, optionAdd_none_right],
              by rw [dtb_serialise_children_checked, h2, optionAppend_none_right]⟩
        · intro hz
          rw [childrenHaveZeroLengthPlaceholder, Bool.or_eq_false_iff] at hz
          obtain ⟨h1, h2⟩ := ihc1.2 hz.1
          obtain ⟨h3, h4⟩ := ihrest.2 hz.2
          exact ⟨by
              rw [dtb_get_serialised_children_size_checked, h1, h3,
                dtb_get_serialised_children_size]
              rfl,
            by
              rw [dtb_serialise_children_checked, h2, h4, dtb_serialise_children]
              rfl⟩
    constructor
    · intro hz
      rw [hasZeroLengthPlaceholder, Bool.or_eq_true] at hz
      rcases hz with hz | hz
      · obtain ⟨kp, hmem, hkp⟩ := List.any_eq_true.mp hz
        rw [Bool.and_eq_true, beq_iff_eq] at hkp
        have hnone := prop_size_checked_none hkp.1 hkp.2
        have hnone2 := @serialise_prop_checked_none kp hkp.1 hkp.2
        constructor
        · rw [dtb_get_serialised_node_size_checked,
            optionSum_map_none _ hmem hnone, optionAdd_none_left,
            optionAdd_none_right]
        · rw [dtb_serialise_node_checked,
            optionFlatten_map_none _ hmem hnone2, optionAppend_none_left,
            optionAppend_none_right]
      · obtain ⟨h1, h2⟩ := hch.1 hz
        constructor
        · rw [dtb_get_serialised_node_size_checked, h1, optionAdd_none_right,
            optionAdd_none_right]
        · rw [dtb_serialise_node_checked, h2, optionAppend_none_right,
            optionAppend_none_right]
    · intro hz
      rw [hasZeroLengthPlaceholder, Bool.or_eq_false_iff] at hz
      have hsome : ∀ kp ∈ ps, dtb_get_serialised_prop_size_checked kp.2 =
          some (dtb_get_serialised_prop_size kp.2) := by
        intro kp hmem
        apply prop_size_checked_some
        intro hc
        have := List.any_eq_false.mp hz.1 kp hmem
        rw [hc.1, hc.2] at this
        simp at this
      have hsome2 : ∀ kp ∈ ps, dtb_serialise_prop_checked kp =
          some (dtb_serialise_prop kp) := by
        intro kp hmem
        apply serialise_prop_checked_some
        intro hc
        have := List.any_eq_false.mp hz.1 kp hmem
        rw [hc.1, hc.2] at this
        simp at this
      obtain ⟨h1, h2⟩ := hch.2 hz.2
      constructor
      · rw [dtb_get_serialised_node_size_checked,
          optionSum_map_some _ (fun kp => dtb_get_serialised_prop_size kp.2) hsome,
          h1, dtb_get_serialised_node_size]
        simp [optionAdd, Nat.add_assoc]
      · rw [dtb_serialise_node_checked,
          optionFlatten_map_some _ dtb_serialise_prop hsome2, h2,
          dtb_serialise_node]
        simp [optionAppend]

/-- Witness for C9: a tree holding a zero-length placeholder is fatal
for the size traversal; a tree whose placeholders all have nonzero
length serialises totally. -/
theorem c9_zero_length_placeholder_assert_witness :
    dtb_get_serialised_node_size_checked
      (DTBNode.mk [(strBytes "p", { length := 0, data := [], placeholder := true })] []) =
      none ∧
    dtb_serialise_node_checked
      (DTBNode.mk [(strBytes "a", placeholderPropOfString "macaddr/en0")]
        [DTBNode.mk [] []]) =
      some (dtb_serialise_node
        (DTBNode.mk [(strBytes "a", placeholderPropOfString "macaddr/en0")]
          [DTBNode.mk [] []])) :=
  ⟨((c9_zero_length_placeholder_assert
      (DTBNode.mk [(strBytes "p", { length := 0, data := [], placeholder := true })] [])).1
    (by decide)).1,
   ((c9_zero_length_placeholder_assert
      (DTBNode.mk [(strBytes "a", placeholderPropOfString "macaddr/en0")]
        [DTBNode.mk [] []])).2
    (by decide)).2⟩

/-- The byte-comparison loop of `strncmp(a, b, n) == 0` over C strings
modelled as byte lists: positions past a list's end read the NUL
terminator.  Comparison stops at the first differing byte, at a shared
NUL, or after `n` bytes. -/
def strncmpEqAux (a b : List Nat) : Nat → Nat → Bool
  | _, 0 => true
  | i, n + 1 =>
    let x := a.getD i 0
    let y := b.getD i 0
    if x = y then (if x = 0 then true else strncmpEqAux a b (i + 1) n)
    else false

/-- `strncmp(a, b, n) == 0`. -/
def strncmpEq (a b : List Nat) (n : Nat) : Bool :=
  strncmpEqAux a b 0 n

/-- `dtb_find_prop`: hash-table lookup by key equality. -/
def dtb_find_prop (n : DTBNode) (name : List Nat) : Option DTBProp :=
  (n.props.find? fun kp => kp.1 == name).map (·.2)

/-- The match test `dtb_get_node` runs on one child for one path
segment: the child's `name` property exists and
`strncmp(prop->data, token, prop->length) == 0`. -/
def dtb_node_name_matches (child : DTBNode) (token : List Nat) : Bool :=
  match dtb_find_prop child (strBytes "name") with
  | none => false
  | some p => strncmpEq p.data token p.length

/-- The token loop of `dtb_get_node`: empty segments are skipped; each
non-empty segment descends into the first matching child, or fails. -/
def dtb_get_node_go : DTBNode → List (List Nat) → Option DTBNode
  | node, [] => some node
  | node, t :: ts =>
    if t = [] then dtb_get_node_go node ts
    else
      match node.children.find? (fun c => dtb_node_name_matches c t) with
      | none => none
      | some child => dtb_get_node_go child ts

/-- `dtb_get_node`: split the path on `/` and walk. -/
def dtb_get_node (node : DTBNode) (path : List Nat) : Option DTBNode :=
  dtb_get_node_go node (strsepTokens 47 path)

/-- Insert-or-replace inside the property store (replacement keeps the
entry's iteration position, insertion appends). -/
def setPropList : List (List Nat × DTBProp) → List Nat → DTBProp →
    List (List Nat × DTBProp)
  | [], name, p => [(name, p)]
  | kp :: rest, name, p =>
    if kp.1 == name then (kp.1, p) :: rest else kp :: setPropList rest name p

/-- `dtb_set_prop`: insert-or-replace a property holding a copy of
`size` bytes of `val` (its assertions — `val` null iff `size` zero, key
shorter than 32 bytes — hold at every use modelled here). -/
def dtb_set_prop (n : DTBNode) (name : List Nat) (size : Nat) (val : List Nat) :
    DTBNode :=
  DTBNode.mk
    (setPropList n.props name
      { length := size,
        data := (List.range size).map fun i => val.getD i 0,
        placeholder := false })
    n.children

/-- `dtb_set_prop_str`: a NUL-terminated string property of length
`strlen(val) + 1`. -/
def dtb_set_prop_str (n : DTBNode) (name val : List Nat) : DTBNode :=
  dtb_set_prop n name (val.length + 1) (val ++ [0])

/-- `dtb_create_node` with a non-NULL parent: fails when the name is
NULL or when `dtb_get_node(parent, name)` — the name resolved as a
path — already finds a node; otherwise builds a fresh node, sets its
`name` string property and appends it to the parent's children.
Returns the updated parent together with the created child. -/
def dtb_create_node (parent : DTBNode) (name : Option (List Nat)) :
    DTBNode × Option DTBNode :=
  match name with
  | none => (parent, none)
  | some s =>
    if (dtb_get_node parent s).isSome then (parent, none)
    else
      let child := dtb_set_prop_str (DTBNode.mk [] []) (strBytes "name") s
      (DTBNode.mk parent.props (parent.children ++ [child]), some child)

theorem range_map_getD (l : List Nat) :
    (List.range l.length).map (fun i => l.getD i 0) = l := by
  induction l with
  | nil => rfl
  | cons a rest ih =>
    rw [List.length_cons, List.range_succ_eq_map, List.map_cons, List.map_map]
    simp only [List.getD_cons_zero, Function.comp, List.getD_cons_succ]
    rw [show (fun i => rest.getD i 0) = fun i => rest.getD i 0 from rfl] at ih
    exact congrArg (a :: ·) ih

theorem strsepTokens_no_sep (sep : Nat) (s : List Nat)
    (h : ∀ b ∈ s, b ≠ sep) : strsepTokens sep s = [s] := by
  induction s with
  | nil => rfl
  | cons c rest ih =>
    rw [strsepTokens, if_neg (h c (by simp)), ih fun b hb => h b (by simp [hb])]

theorem strncmpEqAux_shift (a b : List Nat) (x y : Nat) (n : Nat) :
    ∀ i, strncmpEqAux (x :: a) (y :: b) (i + 1) n = strncmpEqAux a b i n := by
  induction n with
  | zero => intro i; rfl
  | succ n ih =>
    intro i
    simp [strncmpEqAux, List.getD_cons_succ, ih (i + 1)]

/-- Over NUL-free byte strings, the bounded comparison the path
resolver runs against a stored `name` property written by
`dtb_set_prop_str` accepts exactly the equal string: the stored NUL
terminator rules out either side being a strict prefix. -/
theorem strncmpEq_cstring (s : List Nat) :
    ∀ t : List Nat, (∀ b ∈ s, b ≠ 0) → (∀ b ∈ t, b ≠ 0) →
      (strncmpEq (s ++ [0]) t (s.length + 1) = true ↔ t = s) := by
  induction s with
  | nil =>
    intro t _ ht
    cases t with
    | nil => simp [strncmpEq, strncmpEqAux]
    | cons b bs =>
      have hb : b ≠ 0 := ht b (by simp)
      simp [strncmpEq, strncmpEqAux, List.getD_cons_zero, hb, Ne.symm hb]
  | cons a as ih =>
    intro t hs ht
    have ha : a ≠ 0 := hs a (by simp)
    cases t with
    | nil =>
      simp [strncmpEq, strncmpEqAux, List.getD_cons_zero, ha]
    | cons b bs =>
      rw [strncmpEq, List.cons_append, List.length_cons]
      rw [show as.length + 1 + 1 = (as.length + 1) + 1 from rfl, strncmpEqAux]
      simp only [List.getD_cons_zero]
      by_cases hab : a = b
      · subst hab
        rw [if_pos rfl, if_neg ha, strncmpEqAux_shift]
        rw [show strncmpEqAux (as ++ [0]) bs 0 (as.length + 1) =
            strncmpEq (as ++ [0]) bs (as.length + 1) from rfl]
        rw [ih bs (fun x hx => hs x (by simp [hx])) (fun x hx => ht x (by simp [hx]))]
        simp
      · rw [if_neg fun hh => hab hh]
        simp only [Bool.false_eq_true, false_iff]
        intro hh
        injection hh with h1 h2
        exact hab h1.symm

/-- The grandchild `reg` of the C7 example tree, as created by the node
API. -/
def c7reg : DTBNode :=
  dtb_set_prop_str (DTBNode.mk [] []) (strBytes "name") (strBytes "reg")

/-- The child `cpu0` of the C7 example tree, holding `reg`. -/
def c7cpu0 : DTBNode :=
  DTBNode.mk
    (dtb_set_prop_str (DTBNode.mk [] []) (strBytes "name") (strBytes "cpu0")).props
    [c7reg]

/-- The root of the C7 example tree. -/
def c7root : DTBNode :=
  DTBNode.mk [] [c7cpu0]

/-- C7: path resolution ignores empty segments — an empty or all-slash
path returns the starting node unchanged for every node — and on the
example tree root → "cpu0" → "reg", resolving "cpu0/reg" returns the
grandchild, "cpu0/missing" is not found, and "" returns the root. -/
theorem c7_path_resolution (n : DTBNode) :
    dtb_get_node n [] = some n ∧
    dtb_get_node n (strBytes "///") = some n ∧
    dtb_get_node c7root (strBytes "cpu0/reg") = some c7reg ∧
    dtb_get_node c7root (strBytes "cpu0/missing") = none ∧
    dtb_get_node c7root (strBytes "") = some c7root :=
  ⟨rfl, rfl, rfl, rfl, rfl⟩

/-- The `name` property `dtb_create_node` stores on a child created
with name `s`: the string including its NUL, length `strlen(s) + 1`. -/
theorem created_child_find_name (s : List Nat) :
    dtb_find_prop (dtb_set_prop_str (DTBNode.mk [] []) (strBytes "name") s)
        (strBytes "name") =
      some { length := s.length + 1, data := s ++ [0], placeholder := false } := by
  have hdata : (List.range (s.length + 1)).map (fun i => (s ++ [0]).getD i 0) =
      s ++ [0] := by
    have h2 := range_map_getD (s ++ [0])
    simpa using h2
  simp only [List.getD_eq_getElem?_getD] at hdata
  simp [dtb_find_prop, dtb_set_prop_str, dtb_set_prop, setPropList,
    DTBNode.props, hdata]

/-- A path segment matches an API-created child exactly when it equals
the child's name. -/
theorem created_child_matches_iff (s t : List Nat) (hs : ∀ b ∈ s, b ≠ 0)
    (ht : ∀ b ∈ t, b ≠ 0) :
    (dtb_node_name_matches
        (dtb_set_prop_str (DTBNode.mk [] []) (strBytes "name") s) t = true ↔
      t = s) := by
  have hb : dtb_node_name_matches
      (dtb_set_prop_str (DTBNode.mk [] []) (strBytes "name") s) t =
      strncmpEq (s ++ [0]) t (s.length + 1) := by
    rw [dtb_node_name_matches, created_child_find_name]
  rw [hb]
  exact strncmpEq_cstring s t hs ht

/-- C10: a node created with non-null name `s` stores a `name` property
of length `strlen(s) + 1` whose payload is `s` with its terminating NUL
byte, and — because the resolver's comparison is bounded by that stored
length and stops at the NUL — a NUL-free path segment matches such a
node exactly when it equals `s`. -/
theorem c10_created_name_exact_match (s t : List Nat) (hs : ∀ b ∈ s, b ≠ 0)
    (ht : ∀ b ∈ t, b ≠ 0) :
    dtb_find_prop (dtb_set_prop_str (DTBNode.mk [] []) (strBytes "name") s)
        (strBytes "name") =
      some { length := s.length + 1, data := s ++ [0], placeholder := false } ∧
    (dtb_node_name_matches
        (dtb_set_prop_str (DTBNode.mk [] []) (strBytes "name") s) t = true ↔
      t = s) :=
  ⟨created_child_find_name s, created_child_matches_iff s t hs ht⟩

/-- Witness for C10 at `s = t = "cpu0"` and at a non-equal pair where
the segment is a strict prefix of the stored name. -/
theorem c10_created_name_exact_match_witness :
    dtb_node_name_matches
      (dtb_set_prop_str (DTBNode.mk [] []) (strBytes "name") (strBytes "cpu0"))
      (strBytes "cpu0") = true ∧
    dtb_node_name_matches
      (dtb_set_prop_str (DTBNode.mk [] []) (strBytes "name") (strBytes "cpu0"))
      (strBytes "cpu") ≠ true :=
  ⟨(c10_created_name_exact_match (strBytes "cpu0") (strBytes "cpu0")
      (by decide) (by decide)).2.mpr rfl,
   fun hm => by
    have h2 := (c10_created_name_exact_match (strBytes "cpu0") (strBytes "cpu")
      (by decide) (by decide)).2.mp hm
    exact absurd h2 (by decide)⟩

/-- The parent after the first create-child call with name "a/b". -/
def c8parent1 : DTBNode :=
  (dtb_create_node (DTBNode.mk [] []) (some (strBytes "a/b"))).1

/-- C8 counterexample: the duplicate check resolves the name as a
path, so a name containing a slash defeats it — a second create-child
call with the same name "a/b" under the same parent returns a node
again, and the parent ends with two children of that name. -/
theorem c8_slash_name_counterexample :
    (dtb_create_node (DTBNode.mk [] []) (some (strBytes "a/b"))).2.isSome = true ∧
    (dtb_create_node c8parent1 (some (strBytes "a/b"))).2.isSome = true ∧
    (dtb_create_node c8parent1 (some (strBytes "a/b"))).1.children.length = 2 ∧
    ((dtb_create_node c8parent1 (some (strBytes "a/b"))).1.children.filter
      fun c => dtb_node_name_matches c (strBytes "a/b")).length = 2 := by
  decide

/-- C8 (amended): for a name that is non-empty, slash-free and NUL-free
— so that resolving it as a path is the same as matching it as one
segment — `dtb_create_node` returns no node when the name is null or
when the parent already resolves it to a child, and after a successful
creation a second call with the same name returns no node and the
parent holds exactly one child matching that name. -/
theorem c8_duplicate_name_suppression (parent : DTBNode) (s : List Nat)
    (hne : s ≠ []) (hslash : ∀ b ∈ s, b ≠ 47) (hnz : ∀ b ∈ s, b ≠ 0) :
    (dtb_create_node parent none).2 = none ∧
    ((dtb_get_node parent s).isSome →
      dtb_create_node parent (some s) = (parent, none)) ∧
    (∀ p1 c1, dtb_create_node parent (some s) = (p1, some c1) →
      (dtb_create_node p1 (some s)).2 = none ∧
      (p1.children.filter fun c => dtb_node_name_matches c s).length = 1) := by
  have htok : strsepTokens 47 s = [s] := strsepTokens_no_sep 47 s hslash
  refine ⟨rfl, ?_, ?_⟩
  · intro h
    simp [dtb_create_node, h]
  · intro p1 c1 heq
    cases hg : (dtb_get_node parent s).isSome
    · rw [dtb_create_node] at heq
      rw [hg] at heq
      simp only [Bool.false_eq_true, if_false, Prod.mk.injEq] at heq
      obtain ⟨hp1, hc1⟩ := heq
      subst hp1
      have hfind : parent.children.find?
          (fun c => dtb_node_name_matches c s) = none := by
        cases hf : parent.children.find? (fun c => dtb_node_name_matches c s) with
        | none => rfl
        | some c =>
          rw [dtb_get_node, htok, dtb_get_node_go, if_neg hne, hf] at hg
          simp [dtb_get_node_go] at hg
      have hmatch : dtb_node_name_matches
          (dtb_set_prop_str (DTBNode.mk [] []) (strBytes "name") s) s = true :=
        (created_child_matches_iff s s hnz hnz).mpr rfl
      have hget : dtb_get_node
          (DTBNode.mk parent.props
            (parent.children ++
              [dtb_set_prop_str (DTBNode.mk [] []) (strBytes "name") s])) s =
          some (dtb_set_prop_str (DTBNode.mk [] []) (strBytes "name") s) := by
        rw [dtb_get_node, htok, dtb_get_node_go, if_neg hne]
        show (match (parent.children ++
            [dtb_set_prop_str (DTBNode.mk [] []) (strBytes "name") s]).find?
              (fun c => dtb_node_name_matches c s) with
          | none => none
          | some child => dtb_get_node_go child []) = _
        rw [List.find?_append, hfind, Option.none_or]
        simp [List.find?, hmatch, dtb_get_node_go]
      constructor
      · rw [dtb_create_node, hget]
        rfl
      · show ((parent.children ++
            [dtb_set_prop_str (DTBNode.mk [] []) (strBytes "name") s]).filter
              fun c => dtb_node_name_matches c s).length = 1
        rw [List.filter_append,
          List.filter_eq_nil_iff.mpr (by
            intro x hx
            have h2 := List.find?_eq_none.mp hfind x hx
            simpa using h2)]
        simp [List.filter, hmatch]
    · rw [dtb_create_node] at heq
      rw [hg] at heq
      simp at heq
  
/-- The parent after one successful create-child call with name
"cpu0". -/
def c8wparent1 : DTBNode :=
  DTBNode.mk []
    [dtb_set_prop_str (DTBNode.mk [] []) (strBytes "name") (strBytes "cpu0")]

/-- Witness for the amended C8 at a concrete parent and name. -/
theorem c8_duplicate_name_suppression_witness :
    (dtb_create_node c8wparent1 (some (strBytes "cpu0"))).2 = none ∧
    (c8wparent1.children.filter
      fun c => dtb_node_name_matches c (strBytes "cpu0")).length = 1 :=
  (c8_duplicate_name_suppression (DTBNode.mk [] []) (strBytes "cpu0")
    (by decide) (by decide) (by decide)).2.2 c8wparent1
    (dtb_set_prop_str (DTBNode.mk [] []) (strBytes "name") (strBytes "cpu0")) rfl

/-- A byte read from the blob: the source reads `uint8_t` cells. -/
def readByte (mem : Nat → Nat) (i : Nat) : Nat :=
  mem i % 256

/-- `ldl_le_p`: little-endian 32-bit load at the cursor. -/
def ldl_le (mem : Nat → Nat) (cur : Nat) : Nat :=
  readByte mem cur + 256 * readByte mem (cur + 1) +
    65536 * readByte mem (cur + 2) + 16777216 * readByte mem (cur + 3)

/-- `memcpy` of `k` bytes starting at the cursor. -/
def readBytes (mem : Nat → Nat) (cur k : Nat) : List Nat :=
  (List.range k).map fun i => readByte mem (cur + i)

/-- `dtb_deserialise_prop`: 32-byte name field (bytes up to the first
NUL, `strnlen` bounded at 32), the length field with its bit-31
placeholder flag masked off, then the payload rounded up to 4 bytes
when the length is nonzero.  The blob is modelled as unbounded memory
because the source performs no bounds checking whatsoever: reads past
the caller's buffer simply return whatever lies there. -/
def dtb_deserialise_prop (mem : Nat → Nat) (cur : Nat) :
    (List Nat × DTBProp) × Nat :=
  let name := (readBytes mem cur 32).takeWhile (· ≠ 0)
  let field := ldl_le mem (cur + 32)
  let ph := decide (2147483648 ≤ field)
  let len := field % 2147483648
  if len ≠ 0 then
    ((name, DTBProp.mk len (readBytes mem (cur + 36) len) ph),
      cur + 36 + roundUp4 len)
  else
    ((name, DTBProp.mk len [] ph), cur + 36)

/-- The property loop of `dtb_deserialise_node`: parse `count` records,
silently discarding any with an empty decoded name, and aborting
(`g_assert_true(g_hash_table_insert(..))`) on a duplicate name. -/
def dtb_deserialise_props (mem : Nat → Nat) :
    Nat → Nat → List (List Nat × DTBProp) →
    Option (List (List Nat × DTBProp) × Nat)
  | cur, 0, acc => some (acc, cur)
  | cur, i + 1, acc =>
    let r := dtb_deserialise_prop mem cur
    if r.1.1 = [] then dtb_deserialise_props mem r.2 i acc
    else if (acc.map Prod.fst).contains r.1.1 then none
    else dtb_deserialise_props mem r.2 i (acc ++ [r.1])

/-- The child loop of `dtb_deserialise_node`: parse `count` child
records with the given node parser, propagating failure upward and
tearing down (discarding) what was built. -/
def deserialiseChildrenLoop (nodeFn : Nat → Option (DTBNode × Nat)) :
    Nat → Nat → Option (List DTBNode × Nat)
  | cur, 0 => some ([], cur)
  | cur, k + 1 =>
    match nodeFn cur with
    | none => none
    | some (n, cur2) =>
      match deserialiseChildrenLoop nodeFn cur2 k with
      | none => none
      | some (ns, cur3) => some (n :: ns, cur3)

/-- `dtb_deserialise_node`: property count, child count, properties,
then children, depth-first.  `fuel` bounds the recursion depth of the
model (the C function recurses without any bound); every failure path
is a `g_assert` abort or fuel exhaustion — the source has no reachable
clean-failure path of its own for a non-NULL blob. -/
def dtb_deserialise_node (mem : Nat → Nat) : Nat → Nat → Option (DTBNode × Nat)
  | 0, _ => none
  | fuel + 1, cur =>
    let pc := ldl_le mem cur
    let cc := ldl_le mem (cur + 4)
    match dtb_deserialise_props mem (cur + 8) pc [] with
    | none => none
    | some (props, cur2) =>
      match deserialiseChildrenLoop (dtb_deserialise_node mem fuel) cur2 cc with
      | none => none
      | some (children, cur3) => some (DTBNode.mk props children, cur3)

/-- An 8-byte buffer: property count 1, child count 0, cut off before
the announced property record. -/
def c6blob : List Nat := [1, 0, 0, 0, 0, 0, 0, 0]

/-- Memory holding `c6blob` with zeros beyond it. -/
def c6mem1 : Nat → Nat := fun i => c6blob.getD i 0

/-- Memory holding `c6blob` with different garbage beyond it. -/
def c6mem2 : Nat → Nat := fun i => if i = 8 then 120 else c6blob.getD i 0

/-- C6 evidence: on a buffer cut off mid-property the deserialiser does
not fail — it returns a node as if complete, with its cursor 44 bytes
past the start of an 8-byte buffer, and the tree it hands back depends
on whatever memory happens to lie beyond the caller's buffer (the two
memories agree on all 8 buffer bytes yet produce different nodes). -/
theorem c6_truncated_blob_reads_past_end :
    ((List.range 8).all fun i => c6mem1 i == c6mem2 i) = true ∧
    dtb_deserialise_node c6mem1 1 0 = some (DTBNode.mk [] [], 44) ∧
    dtb_deserialise_node c6mem2 1 0 =
      some (DTBNode.mk [([120], DTBProp.mk 0 [] false)] [], 44) :=
  ⟨by decide, rfl, rfl⟩

/-- Well-formedness of one property record as the Property Store API
builds it: non-empty NUL-free key of at most 31 bytes (the name-length
assertion), no placeholder flag, a declared length under bit 31 holding
exactly the payload's byte count, and byte-sized payload values. -/
def wfProp (kp : List Nat × DTBProp) : Bool :=
  !kp.1.isEmpty && decide (kp.1.length ≤ 31) &&
    kp.1.all (fun b => decide (0 < b) && decide (b < 256)) &&
    !kp.2.placeholder && decide (kp.2.length < 2147483648) &&
    (kp.2.data.length == kp.2.length) &&
    kp.2.data.all (fun b => decide (b < 256))

/-- Key uniqueness, as the hash table enforces per node. -/
def keysDistinct : List (List Nat) → Bool
  | [] => true
  | k :: rest => !rest.contains k && keysDistinct rest

mutual

/-- Well-formedness of a whole tree built by the API. -/
def wfNode : DTBNode → Bool
  | .mk ps cs =>
    ps.all wfProp && keysDistinct (ps.map Prod.fst) &&
      decide (ps.length < 4294967296) && decide (cs.length < 4294967296) &&
      wfChildren cs

def wfChildren : List DTBNode → Bool
  | [] => true
  | c :: rest => wfNode c && wfChildren rest

end

mutual

/-- Recursion depth of a tree (1 for a leaf). -/
def nodeDepth : DTBNode → Nat
  | .mk _ cs => 1 + childrenDepth cs

def childrenDepth : List DTBNode → Nat
  | [] => 0
  | c :: rest => max (nodeDepth c) (childrenDepth rest)

end

/-- The memory holds exactly the bytes `bs` starting at `cur`. -/
def memAgrees (mem : Nat → Nat) (cur : Nat) (bs : List Nat) : Prop :=
  ∀ i, i < bs.length → readByte mem (cur + i) = bs.getD i 0

theorem getD_append_left (a b : List Nat) (i : Nat) (hi : i < a.length) :
    (a ++ b).getD i 0 = a.getD i 0 := by
  rw [List.getD_eq_getElem?_getD, List.getD_eq_getElem?_getD,
    List.getElem?_append_left hi]

theorem getD_append_right (a b : List Nat) (i : Nat) :
    (a ++ b).getD (a.length + i) 0 = b.getD i 0 := by
  rw [List.getD_eq_getElem?_getD, List.getD_eq_getElem?_getD]
  congr 1
  rw [List.getElem?_append_right (by omega)]
  congr 1
  omega

theorem memAgrees_append {mem : Nat → Nat} {cur : Nat} {a b : List Nat}
    (h : memAgrees mem cur (a ++ b)) :
    memAgrees mem cur a ∧ memAgrees mem (cur + a.length) b := by
  constructor
  · intro i hi
    have h2 := h i (by rw [List.length_append]; omega)
    rwa [getD_append_left a b i hi] at h2
  · intro i hi
    have h2 := h (a.length + i) (by rw [List.length_append]; omega)
    rw [getD_append_right a b i] at h2
    rw [Nat.add_assoc]
    exact h2

theorem ldl_le_of_agrees {mem : Nat → Nat} {cur n : Nat}
    (h : memAgrees mem cur (u32le n)) (hn : n < 4294967296) :
    ldl_le mem cur = n := by
  have h0 := h 0 (by simp [u32le])
  have h1 := h 1 (by simp [u32le])
  have h2 := h 2 (by simp [u32le])
  have h3 := h 3 (by simp [u32le])
  simp [u32le] at h0 h1 h2 h3
  rw [ldl_le, h0, h1, h2, h3]
  omega

theorem readBytes_of_agrees {mem : Nat → Nat} {cur : Nat} {bs : List Nat}
    (h : memAgrees mem cur bs) : readBytes mem cur bs.length = bs := by
  rw [readBytes]
  rw [List.map_congr_left fun i hi => h i (List.mem_range.mp hi)]
  exact range_map_getD bs

theorem getD_map_range (f : Nat → Nat) (n i : Nat) (hi : i < n) :
    ((List.range n).map f).getD i 0 = f i := by
  rw [List.getD_eq_getElem?_getD, List.getElem?_map, List.getElem?_range hi]
  rfl

theorem takeWhile_ne_zero_self (k : List Nat) (h : ∀ b ∈ k, b ≠ 0) :
    k.takeWhile (· ≠ 0) = k := by
  induction k with
  | nil => rfl
  | cons a rest ih =>
    rw [List.takeWhile_cons]
    simp [h a (by simp)]
    exact fun x hx => h x (by simp [hx])

theorem map_range_getD_split (k : List Nat) (n : Nat) (h : k.length ≤ n) :
    (List.range n).map (fun i => k.getD i 0) =
      k ++ List.replicate (n - k.length) 0 := by
  induction k generalizing n with
  | nil =>
    simp [List.getD]
  | cons a rest ih =>
    cases n with
    | zero => simp at h
    | succ m =>
      rw [List.range_succ_eq_map, List.map_cons, List.map_map]
      simp only [List.getD_cons_zero, Function.comp_def, List.getD_cons_succ]
      rw [ih m (by simpa using h)]
      simp [List.replicate]

theorem takeWhile_append_zero (k r : List Nat) (hnz : ∀ b ∈ k, b ≠ 0) :
    (k ++ 0 :: r).takeWhile (· ≠ 0) = k := by
  induction k with
  | nil => simp [List.takeWhile_cons]
  | cons a rest ih =>
    rw [List.cons_append, List.takeWhile_cons]
    simp [hnz a (by simp)]
    simpa using ih fun b hb => hnz b (by simp [hb])

/-- Reading the name field back: `strnlen` recovers exactly the stored
key. -/
theorem deserialise_name_of_wf (k : List Nat) (hlen : k.length ≤ 31)
    (hnz : ∀ b ∈ k, b ≠ 0) :
    (nameField32 k).takeWhile (· ≠ 0) = k := by
  rw [nameField32]
  simp only [takeWhile_ne_zero_self k hnz]
  rw [map_range_getD_split k 32 (by omega)]
  have h32 : 32 - k.length = (31 - k.length) + 1 := by omega
  rw [h32, List.replicate_succ]
  exact takeWhile_append_zero k _ hnz

/-- One well-formed property record round-trips and advances the
cursor by exactly its serialised size. -/
theorem deserialise_prop_of_agrees (k : List Nat) (plen : Nat)
    (pdata : List Nat) (hwf : wfProp (k, DTBProp.mk plen pdata false) = true)
    (mem : Nat → Nat) (cur : Nat)
    (hag : memAgrees mem cur (dtb_serialise_prop (k, DTBProp.mk plen pdata false))) :
    dtb_deserialise_prop mem cur =
      ((k, DTBProp.mk plen pdata false),
        cur + (dtb_serialise_prop (k, DTBProp.mk plen pdata false)).length) := by
  simp only [wfProp, Bool.and_eq_true, Bool.not_eq_true', List.isEmpty_eq_false,
    decide_eq_true_eq, beq_iff_eq, List.all_eq_true] at hwf
  obtain ⟨⟨⟨⟨⟨⟨hkne, hklen⟩, hkbytes⟩, hph⟩, hplen⟩, hdlen⟩, hdbytes⟩ := hwf
  have hser : dtb_serialise_prop (k, DTBProp.mk plen pdata false) =
      nameField32 k ++ (u32le plen ++
        (if plen = 0 then [] else payloadBytes plen pdata)) := rfl
  have hlen2 : (dtb_serialise_prop (k, DTBProp.mk plen pdata false)).length =
      36 + roundUp4 plen := by
    rw [length_dtb_serialise_prop, dtb_get_serialised_prop_size]
    simp
  rw [hser] at hag
  obtain ⟨hag1, hag23⟩ := memAgrees_append hag
  rw [length_nameField32] at hag23
  obtain ⟨hag2, hag3⟩ := memAgrees_append hag23
  rw [length_u32le] at hag3
  have hcur36 : cur + 32 + 4 = cur + 36 := by omega
  rw [hcur36] at hag3
  have hname : readBytes mem cur 32 = nameField32 k := by
    have h2 := readBytes_of_agrees hag1
    rwa [length_nameField32] at h2
  have hknz : ∀ b ∈ k, b ≠ 0 := fun b hb => by
    have h3 := (hkbytes b hb).1
    omega
  have hfield : ldl_le mem (cur + 32) = plen :=
    ldl_le_of_agrees hag2 (by omega)
  rw [dtb_deserialise_prop, hname, hfield,
    deserialise_name_of_wf k hklen hknz]
  have hphval : decide (2147483648 ≤ plen) = false := by
    simp only [decide_eq_false_iff_not]
    omega
  have hmod : plen % 2147483648 = plen := Nat.mod_eq_of_lt hplen
  rw [hphval, hmod, hlen2]
  by_cases h0 : plen = 0
  · rw [if_neg (by omega)]
    have hdata : pdata = [] := List.length_eq_zero.mp (by omega)
    subst hdata
    subst h0
    rfl
  · rw [if_pos h0]
    rw [if_neg h0] at hag3
    have hdata2 : readBytes mem (cur + 36) plen = pdata := by
      rw [readBytes]
      have hcong : ∀ i ∈ List.range plen,
          readByte mem (cur + 36 + i) = pdata.getD i 0 := by
        intro i hi
        have hilt : i < plen := List.mem_range.mp hi
        have hle : plen ≤ roundUp4 plen := by
          rw [roundUp4]
          omega
        have h4 := hag3 i (by rw [length_payloadBytes]; omega)
        rw [payloadBytes, getD_map_range _ _ _ (by omega), if_pos hilt] at h4
        exact h4
      rw [List.map_congr_left hcong]
      rw [show plen = pdata.length from hdlen.symm]
      exact range_map_getD pdata
    rw [hdata2, Nat.add_assoc]

theorem keysDistinct_iff (l : List (List Nat)) :
    keysDistinct l = true ↔ l.Nodup := by
  induction l with
  | nil => simp [keysDistinct]
  | cons k rest ih => simp [keysDistinct, ih, List.nodup_cons]

/-- The property loop parses back exactly the serialised records,
appending them to the accumulated store, and advances the cursor by the
records' total size. -/
theorem deserialise_props_of_agrees :
    ∀ (ps acc : List (List Nat × DTBProp)) (mem : Nat → Nat) (cur : Nat),
      (∀ kp ∈ ps, wfProp kp = true) →
      keysDistinct ((acc ++ ps).map Prod.fst) = true →
      memAgrees mem cur (ps.map dtb_serialise_prop).flatten →
      dtb_deserialise_props mem cur ps.length acc =
        some (acc ++ ps, cur + (ps.map dtb_serialise_prop).flatten.length) := by
  intro ps
  induction ps with
  | nil =>
    intro acc mem cur _ _ _
    simp [dtb_deserialise_props]
  | cons kp rest ih =>
    intro acc mem cur hwf hdist hag
    obtain ⟨k, plen, pdata, pph⟩ := kp
    have hwf1 := hwf (k, DTBProp.mk plen pdata pph) (by simp)
    cases pph with
    | true => simp [wfProp] at hwf1
    | false =>
    have hkne : k ≠ [] := by
      simp only [wfProp, Bool.and_eq_true, Bool.not_eq_true',
        List.isEmpty_eq_false] at hwf1
      exact hwf1.1.1.1.1.1.1
    rw [List.map_cons, List.flatten_cons] at hag
    obtain ⟨hag1, hag2⟩ := memAgrees_append hag
    rw [List.length_cons, dtb_deserialise_props,
      deserialise_prop_of_agrees k plen pdata hwf1 mem cur hag1]
    have hnodup : ((acc ++ (k, DTBProp.mk plen pdata false) :: rest).map
        Prod.fst).Nodup := (keysDistinct_iff _).mp hdist
    rw [List.map_append, List.map_cons] at hnodup
    have hknotin : k ∉ acc.map Prod.fst := by
      intro hmem
      obtain ⟨-, -, hdisj⟩ := List.nodup_append.mp hnodup
      exact hdisj hmem (by simp)
    have hcontains : (acc.map Prod.fst).contains k = false := by
      simpa using hknotin
    simp only [if_neg hkne, hcontains, Bool.false_eq_true, if_false]
    have hdist2 : keysDistinct (((acc ++ [(k, DTBProp.mk plen pdata false)]) ++
        rest).map Prod.fst) = true := by
      rw [keysDistinct_iff, List.append_assoc, List.singleton_append]
      exact (keysDistinct_iff _).mp hdist
    rw [ih (acc ++ [(k, DTBProp.mk plen pdata false)]) mem
      (cur + (dtb_serialise_prop (k, DTBProp.mk plen pdata false)).length)
      (fun x hx => hwf x (by simp [hx])) hdist2 hag2]
    rw [List.append_assoc, List.singleton_append, List.map_cons,
      List.flatten_cons, List.length_append, Nat.add_assoc]

theorem wfProp_not_placeholder {kp : List Nat × DTBProp}
    (h : wfProp kp = true) : kp.2.placeholder = false := by
  simp only [wfProp, Bool.and_eq_true, Bool.not_eq_true'] at h
  exact h.1.1.1.2

/-- A well-formed property store serialises all its records: nothing is
dropped. -/
theorem no_dropped_of_wf {ps : List (List Nat × DTBProp)}
    (h : ∀ kp ∈ ps, wfProp kp = true) : ps.filter dtb_prop_dropped = [] := by
  rw [List.filter_eq_nil_iff]
  intro kp hkp
  simp [dtb_prop_dropped, wfProp_not_placeholder (h kp hkp)]

theorem children_loop_of_agrees (mem : Nat → Nat) (fuel : Nat)
    (hIH : ∀ t cur, wfNode t = true → nodeDepth t ≤ fuel →
      memAgrees mem cur (dtb_serialise_node t) →
      dtb_deserialise_node mem fuel cur =
        some (t, cur + (dtb_serialise_node t).length)) :
    ∀ (cs : List DTBNode) (cur : Nat), wfChildren cs = true →
      childrenDepth cs ≤ fuel →
      memAgrees mem cur (dtb_serialise_children cs) →
      deserialiseChildrenLoop (dtb_deserialise_node mem fuel) cur cs.length =
        some (cs, cur + (dtb_serialise_children cs).length) := by
  intro cs
  induction cs with
  | nil =>
    intro cur _ _ _
    simp [deserialiseChildrenLoop, dtb_serialise_children]
  | cons c rest ih =>
    intro cur hwf hd hag
    rw [wfChildren, Bool.and_eq_true] at hwf
    rw [childrenDepth] at hd
    rw [dtb_serialise_children] at hag
    obtain ⟨hag1, hag2⟩ := memAgrees_append hag
    simp only [List.length_cons, deserialiseChildrenLoop,
      hIH c cur hwf.1 ((Nat.le_max_left _ _).trans hd) hag1,
      ih (cur + (dtb_serialise_node c).length) hwf.2
        ((Nat.le_max_right _ _).trans hd) hag2]
    rw [dtb_serialise_children, List.length_append, Nat.add_assoc]

/-- Main round-trip induction: a well-formed tree deserialises from its
own serialisation, given fuel at least its depth, consuming exactly its
serialised size. -/
theorem deserialise_node_of_agrees :
    ∀ (fuel : Nat) (t : DTBNode) (mem : Nat → Nat) (cur : Nat),
      wfNode t = true → nodeDepth t ≤ fuel →
      memAgrees mem cur (dtb_serialise_node t) →
      dtb_deserialise_node mem fuel cur =
        some (t, cur + (dtb_serialise_node t).length) := by
  intro fuel
  induction fuel with
  | zero =>
    intro t mem cur _ hd _
    obtain ⟨ps, cs⟩ := t
    rw [nodeDepth] at hd
    omega
  | succ fuel ih =>
    intro t mem cur hwf hd hag
    obtain ⟨ps, cs⟩ := t
    rw [wfNode, Bool.and_eq_true, Bool.and_eq_true, Bool.and_eq_true,
      Bool.and_eq_true] at hwf
    obtain ⟨⟨⟨⟨hpall, hdist⟩, hpc⟩, hcc⟩, hwfc⟩ := hwf
    have hpall2 : ∀ kp ∈ ps, wfProp kp = true := List.all_eq_true.mp hpall
    have hnodrop : ps.filter dtb_prop_dropped = [] := no_dropped_of_wf hpall2
    rw [nodeDepth] at hd
    rw [dtb_serialise_node, hnodrop] at hag
    simp only [List.length_nil, Nat.sub_zero] at hag
    obtain ⟨hagABP, hagC⟩ := memAgrees_append hag
    obtain ⟨hagAB, hagP⟩ := memAgrees_append hagABP
    obtain ⟨hagA, hagB⟩ := memAgrees_append hagAB
    rw [length_u32le] at hagB
    rw [List.length_append, length_u32le, length_u32le,
      show cur + (4 + 4) = cur + 8 from by omega] at hagP
    rw [List.length_append, List.length_append, length_u32le, length_u32le,
      show cur + (4 + 4 + (List.map dtb_serialise_prop ps).flatten.length) =
        cur + 8 + (List.map dtb_serialise_prop ps).flatten.length
        from by omega] at hagC
    have hpcv : ldl_le mem cur = ps.length :=
      ldl_le_of_agrees hagA (by simpa using hpc)
    have hccv : ldl_le mem (cur + 4) = cs.length :=
      ldl_le_of_agrees hagB (by simpa using hcc)
    have hprops := deserialise_props_of_agrees ps [] mem (cur + 8) hpall2
      (by simpa using hdist) hagP
    rw [List.nil_append] at hprops
    have hchildren := children_loop_of_agrees mem fuel (fun t2 c2 => ih t2 mem c2)
      cs (cur + 8 + (ps.map dtb_serialise_prop).flatten.length) hwfc
      (by omega) hagC
    rw [dtb_deserialise_node, hpcv, hccv]
    simp only [hprops, hchildren]
    have hfinal : cur + 8 + (ps.map dtb_serialise_prop).flatten.length +
        (dtb_serialise_children cs).length =
        cur + (dtb_serialise_node (DTBNode.mk ps cs)).length := by
      rw [dtb_serialise_node]
      simp only [List.length_append, length_u32le]
      omega
    rw [hfinal]

theorem getD_lt_256 {l : List Nat} (h : ∀ x ∈ l, x < 256) (i : Nat) :
    l.getD i 0 < 256 := by
  rcases Nat.lt_or_ge i l.length with hi | hi
  · rw [List.getD_eq_getElem l 0 hi]
    exact h _ (List.getElem_mem hi)
  · rw [List.getD_eq_default l 0 hi]
    omega

theorem mem_u32le_lt {b n : Nat} (h : b ∈ u32le n) : b < 256 := by
  simp [u32le] at h
  rcases h with h | h | h | h <;> omega

theorem serialise_prop_bytes_lt {kp : List Nat × DTBProp}
    (h : wfProp kp = true) : ∀ b ∈ dtb_serialise_prop kp, b < 256 := by
  obtain ⟨k, p⟩ := kp
  have hph := wfProp_not_placeholder h
  simp only [wfProp, Bool.and_eq_true, decide_eq_true_eq,
    List.all_eq_true, beq_iff_eq] at h
  have hkbytes : ∀ x ∈ k, x < 256 := fun x hx => (h.1.1.1.1.2 x hx).2
  have hdbytes : ∀ x ∈ p.data, x < 256 := h.2
  have hph2 : p.placeholder = false := hph
  intro b hb
  rw [dtb_serialise_prop] at hb
  simp only [hph2, Bool.false_eq_true, if_false] at hb
  rw [List.mem_append, List.mem_append] at hb
  rcases hb with (hb | hb) | hb
  · rw [nameField32, List.mem_map] at hb
    obtain ⟨i, -, hi2⟩ := hb
    rw [← hi2]
    refine getD_lt_256 (fun x hx => hkbytes x ?_) i
    exact List.IsPrefix.mem hx (List.takeWhile_prefix _)
  · exact mem_u32le_lt hb
  · rcases h0 : p.length == 0 with - | -
    · rw [if_neg (by simpa using h0)] at hb
      rw [payloadBytes, List.mem_map] at hb
      obtain ⟨i, -, hi2⟩ := hb
      rw [← hi2]
      by_cases hil : i < p.length
      · rw [if_pos hil]
        exact getD_lt_256 hdbytes i
      · rw [if_neg hil]
        omega
    · rw [if_pos (by simpa using h0)] at hb
      simp at hb

theorem mem_serialise_children {b : Nat} :
    ∀ {cs : List DTBNode}, b ∈ dtb_serialise_children cs →
      ∃ c ∈ cs, b ∈ dtb_serialise_node c := by
  intro cs
  induction cs with
  | nil =>
    intro h
    simp [dtb_serialise_children] at h
  | cons c rest ih =>
    intro h
    rw [dtb_serialise_children, List.mem_append] at h
    rcases h with h | h
    · exact ⟨c, by simp, h⟩
    · obtain ⟨d, hd1, hd2⟩ := ih h
      exact ⟨d, by simp [hd1], hd2⟩

/-- Every byte the serialiser emits for a well-formed tree fits in one
octet, as it must since the C buffer holds `uint8_t` cells. -/
theorem serialise_node_bytes_lt :
    ∀ (t : DTBNode), wfNode t = true → ∀ b ∈ dtb_serialise_node t, b < 256 := by
  intro t
  induction t using DTBNode.inductionOn with
  | h ps cs ihc =>
    intro hwf b hb
    rw [wfNode, Bool.and_eq_true, Bool.and_eq_true, Bool.and_eq_true,
      Bool.and_eq_true] at hwf
    obtain ⟨⟨⟨⟨hpall, -⟩, -⟩, -⟩, hwfc⟩ := hwf
    have hwfc2 : ∀ c ∈ cs, wfNode c = true := by
      clear hb
      induction cs with
      | nil => simp
      | cons c rest ihr =>
        rw [wfChildren, Bool.and_eq_true] at hwfc
        intro x hx
        rcases List.mem_cons.mp hx with rfl | hx2
        · exact hwfc.1
        · exact ihr (fun d hd => ihc d (by simp [hd])) hwfc.2 x hx2
    rw [dtb_serialise_node] at hb
    rw [List.mem_append, List.mem_append, List.mem_append] at hb
    rcases hb with ((hb | hb) | hb) | hb
    · exact mem_u32le_lt hb
    · exact mem_u32le_lt hb
    · rw [List.mem_flatten] at hb
      obtain ⟨rec, hrec, hbrec⟩ := hb
      rw [List.mem_map] at hrec
      obtain ⟨kp, hkp, hkp2⟩ := hrec
      rw [← hkp2] at hbrec
      exact serialise_prop_bytes_lt (List.all_eq_true.mp hpall kp hkp) b hbrec
    · obtain ⟨c, hc, hbc⟩ := mem_serialise_children hb
      exact ihc c hc (hwfc2 c hc) b hbc

/-- C4 (amended): for a tree whose property names are non-empty (and
otherwise API-shaped: NUL-free names of at most 31 bytes, unique per
node, no placeholders, declared lengths under bit 31 matching the
payload byte count, byte-sized values and counts), deserialising the
serialisation with recursion depth allowance at least the tree's depth
reproduces the tree exactly — identical property lists and child order
at every level — and consumes exactly
`dtb_get_serialised_node_size`. -/
theorem c4_roundtrip_amended (t : DTBNode) (hwf : wfNode t = true)
    (fuel : Nat) (hfuel : nodeDepth t ≤ fuel) :
    dtb_deserialise_node (fun i => (dtb_serialise t).getD i 0) fuel 0 =
      some (t, dtb_get_serialised_node_size t) := by
  have hbytes := serialise_node_bytes_lt t hwf
  have hag : memAgrees (fun i => (dtb_serialise t).getD i 0) 0
      (dtb_serialise_node t) := by
    intro i hi
    simp only [readByte, Nat.zero_add]
    refine Nat.mod_eq_of_lt (getD_lt_256 (fun x hx => hbytes x ?_) i)
    exact hx
  have h2 := deserialise_node_of_agrees fuel t _ 0 hwf hfuel hag
  rw [Nat.zero_add, length_dtb_serialise_node] at h2
  exact h2

/-- A node carrying one zero-length property with the empty name, as
`dtb_set_prop(node, "", 0, NULL)` builds it. -/
def c4tree : DTBNode :=
  dtb_set_prop (DTBNode.mk [] []) [] 0 []

/-- C4 counterexample: the empty-named property is accepted by the
Property Store (its name-length assertion passes) and serialised, but
the deserialiser discards records with an empty decoded name, so the
round trip returns a node with no properties at all — not the same
property set. -/
theorem c4_empty_name_counterexample :
    c4tree.props.length = 1 ∧
    dtb_deserialise_node (fun i => (dtb_serialise c4tree).getD i 0) 1 0 =
      some (DTBNode.mk [] [], dtb_get_serialised_node_size c4tree) ∧
    (DTBNode.mk [] []).props.length = 0 :=
  ⟨rfl, rfl, rfl⟩

/-- Witness for the amended C4 on the concrete two-level example tree. -/
theorem c4_roundtrip_amended_witness :
    dtb_deserialise_node (fun i => (dtb_serialise c7root).getD i 0) 3 0 =
      some (c7root, dtb_get_serialised_node_size c7root) :=
  c4_roundtrip_amended c7root (by decide) 3 (by decide)
